import Mathlib

/-!
Verification of the multiplayer minesweeper server (`src/server/index.js`).

The server is shallowly embedded: boards are lists of lists of cells, the
seeded pseudo-random generator `Math.sin(seed + counter) * 10000` is
abstracted by an oracle `f : Int → Frac` returning the fractional part
`x - Math.floor(x)` as an exact fraction (every JavaScript double in
`[0, 1)` is such a fraction), the
mine-placement `while` loop and the flood-fill `while` loop are given
explicit fuel, and each socket handler becomes a pure function from the
room/board state and the event payload to the successor state plus the
list of emitted socket events.
-/

namespace Mines

/-- One board cell, mirroring the object literal built in
`generateBoardWithSeed`. -/
structure Cell where
  isMine : Bool
  isRevealed : Bool
  isFlagged : Bool
  adjacentMines : Nat
deriving Repr, DecidableEq

/-- The freshly constructed cell (`isMine: false, isRevealed: false,
isFlagged: false, adjacentMines: 0`). -/
def Cell.init : Cell := ⟨false, false, false, 0⟩

instance : Inhabited Cell := ⟨Cell.init⟩

/-- A board is a row-major list of rows of cells, as in the JavaScript
`Array.from({length: rows}, () => Array.from({length: cols}, ...))`. -/
abbrev Board := List (List Cell)

/-- Read entry `(r, c)` of a grid, with a default for out-of-range access. -/
def gridGet (g : List (List α)) (d : α) (r c : Nat) : α :=
  (g.getD r []).getD c d

/-- Write entry `(r, c)` of a grid; out-of-range writes are dropped. -/
def gridSet (g : List (List α)) (r c : Nat) (a : α) : List (List α) :=
  g.set r ((g.getD r []).set c a)

/-- Read a cell at natural-number coordinates. -/
def getCellN (b : Board) (r c : Nat) : Cell := gridGet b Cell.init r c

/-- Read a cell at JavaScript (integer) coordinates; negative indices fall
back to the default cell. -/
def getCellZ (b : Board) (r c : Int) : Cell :=
  if 0 ≤ r ∧ 0 ≤ c then getCellN b r.toNat c.toNat else Cell.init

/-- Partial cell lookup: `none` exactly when JavaScript's
`board[r][c]` would be an access on `undefined`. -/
def getCell? (b : Board) (r c : Int) : Option Cell :=
  if 0 ≤ r ∧ 0 ≤ c then (b[r.toNat]?).bind (fun row => row[c.toNat]?) else none

/-- Write a cell at JavaScript (integer) coordinates. -/
def setCellZ (b : Board) (r c : Int) (cell : Cell) : Board :=
  if 0 ≤ r ∧ 0 ≤ c then gridSet b r.toNat c.toNat cell else b

/-- The board has exactly `rows` rows of exactly `cols` cells each. -/
def BoardDims (b : Board) (rows cols : Nat) : Prop :=
  b.length = rows ∧ ∀ row ∈ b, row.length = cols

/-- All in-range index pairs, row-major — the iteration order of the
server's nested `for` loops. -/
def cellIdx (rows cols : Nat) : List (Nat × Nat) :=
  (List.range rows) ×ˢ (List.range cols)

/-- Number of mines on the `rows × cols` grid of a board. -/
def gridMineCount (b : Board) (rows cols : Nat) : Nat :=
  (cellIdx rows cols).countP (fun rc => (getCellN b rc.1 rc.2).isMine)

/-- A fractional value `num / den`, exact for every JavaScript double in
`[0, 1)` (take `den = 2 ^ 53`). -/
structure Frac where
  num : Nat
  den : Nat
deriving Repr, DecidableEq

/-- The deterministic draw
`Math.floor((x - Math.floor(x)) * (max - min + 1)) + min` where
`x = Math.sin(seed + counter) * 10000`; the oracle `f` stands for the
fractional part `x - Math.floor(x)`, given as an exact fraction, so the
floor of the product is the natural-number division below (the range
`max - min + 1` is nonnegative at every call site). -/
def jsRandom (f : Int → Frac) (seed : Int) (counter : Nat) (lo hi : Int) : Int :=
  lo + ((f (seed + counter)).num * (hi - lo + 1).toNat / (f (seed + counter)).den : Nat)

/-- The oracle returns a genuine fractional part: `0 ≤ num / den < 1`. -/
def FracOracle (f : Int → Frac) : Prop := ∀ x, (f x).num < (f x).den

/-- Membership in the safe zone: the safe cell itself (added
unconditionally) plus its in-bounds Chebyshev-distance-1 neighbours. -/
def inSafeZone (rows cols : Nat) (safeR safeC r c : Int) : Bool :=
  decide ((r = safeR ∧ c = safeC) ∨
    ((r - safeR).natAbs ≤ 1 ∧ (c - safeC).natAbs ≤ 1 ∧
      0 ≤ r ∧ r < (rows : Int) ∧ 0 ≤ c ∧ c < (cols : Int)))

/-- The all-fresh board created by the two nested `Array.from` calls. -/
def initBoard (rows cols : Nat) : Board :=
  List.replicate rows (List.replicate cols Cell.init)

/-- The mine-placement `while (minesPlaced < mines)` loop, with explicit
fuel standing for the number of remaining iterations; `none` models an
execution that does not finish within the fuel. -/
def placeMines (f : Int → Frac) (seed : Int) (rows cols mines : Nat)
    (safeR safeC : Int) : Nat → Nat → Nat → Board → Option Board
  | 0, _, placed, b => if mines ≤ placed then some b else none
  | fuel + 1, counter, placed, b =>
    if mines ≤ placed then some b
    else
      let r := jsRandom f seed counter 0 ((rows : Int) - 1)
      let c := jsRandom f seed (counter + 1) 0 ((cols : Int) - 1)
      if (getCellZ b r c).isMine = false ∧ inSafeZone rows cols safeR safeC r c = false then
        placeMines f seed rows cols mines safeR safeC fuel (counter + 2) (placed + 1)
          (setCellZ b r c { getCellZ b r c with isMine := true })
      else
        placeMines f seed rows cols mines safeR safeC fuel (counter + 2) placed b

/-- The nine offsets scanned by the adjacency loop (the source's
`dr`/`dc` loops do not skip `(0,0)` here). -/
def adjDeltas : List (Int × Int) :=
  [(-1, -1), (-1, 0), (-1, 1), (0, -1), (0, 0), (0, 1), (1, -1), (1, 0), (1, 1)]

/-- Number of in-bounds mined neighbours of `(r, c)`. -/
def adjacentMineCount (b : Board) (rows cols : Nat) (r c : Int) : Nat :=
  adjDeltas.countP (fun d =>
    decide (0 ≤ r + d.1 ∧ r + d.1 < (rows : Int) ∧ 0 ≤ c + d.2 ∧ c + d.2 < (cols : Int) ∧
      (getCellZ b (r + d.1) (c + d.2)).isMine = true))

/-- The `Calculate adjacent mines` pass: every non-mine cell receives the
count of mined in-bounds neighbours; mine cells are skipped. -/
def computeAdjacency (b : Board) (rows cols : Nat) : Board :=
  (List.range rows).map fun r =>
    (List.range cols).map fun c =>
      let cell := getCellN b r c
      if cell.isMine then cell
      else { cell with adjacentMines := adjacentMineCount b rows cols (r : Int) (c : Int) }

/-- `generateBoardWithSeed(seed, rows, cols, mines, safeR, safeC)`:
build the fresh board, place the mines outside the safe zone with the
seeded draws, then fill in the adjacency counts. -/
def generateBoardWithSeed (f : Int → Frac) (seed : Int) (rows cols mines : Nat)
    (safeR safeC : Int) (fuel : Nat) : Option Board :=
  (placeMines f seed rows cols mines safeR safeC fuel 0 0 (initBoard rows cols)).map
    (fun b => computeAdjacency b rows cols)

/-- Read the visited matrix (default `false`, as the loop only consults
it after the bounds checks). -/
def getVisited (v : List (List Bool)) (r c : Int) : Bool :=
  if 0 ≤ r ∧ 0 ≤ c then gridGet v false r.toNat c.toNat else false

/-- Mark a visited entry. -/
def setVisited (v : List (List Bool)) (r c : Int) : List (List Bool) :=
  if 0 ≤ r ∧ 0 ≤ c then gridSet v r.toNat c.toNat true else v

/-- The `visited` matrix built by `Array.from(... Array(cols).fill(false))`. -/
def initVisited (rows cols : Nat) : List (List Bool) :=
  List.replicate rows (List.replicate cols false)

/-- The eight neighbour offsets pushed by the flood fill, in the order of
the source's `dr`/`dc` loops (which skip `(0,0)`). -/
def floodDeltas : List (Int × Int) :=
  [(-1, -1), (-1, 0), (-1, 1), (0, -1), (0, 1), (1, -1), (1, 0), (1, 1)]

/-- One `while (stack.length > 0)` loop of `floodReveal`. The stack is a
list whose head is the next `stack.pop()`; pushes therefore prepend in
reverse source order. Fuel bounds the number of iterations. -/
def floodLoop (rows cols : Nat) : Nat → Board → List (List Bool) → List (Int × Int) → Board
  | _, b, _, [] => b
  | 0, b, _, _ :: _ => b
  | fuel + 1, b, visited, (cr, cc) :: rest =>
    if cr < 0 ∨ (rows : Int) ≤ cr ∨ cc < 0 ∨ (cols : Int) ≤ cc ∨
        getVisited visited cr cc = true ∨
        (getCellZ b cr cc).isRevealed = true ∨ (getCellZ b cr cc).isFlagged = true then
      floodLoop rows cols fuel b visited rest
    else
      let b' := setCellZ b cr cc { getCellZ b cr cc with isRevealed := true }
      let visited' := setVisited visited cr cc
      let stack' :=
        if (getCellZ b' cr cc).adjacentMines = 0 ∧ (getCellZ b' cr cc).isMine = false then
          ((floodDeltas.map (fun d => (cr + d.1, cc + d.2))).reverse) ++ rest
        else rest
      floodLoop rows cols fuel b' visited' stack'

/-- `floodReveal(board, r, c, rows, cols)`: run the flood-fill loop from
the given origin. `9 * rows * cols + 1` iterations always suffice: the
initial push plus at most eight pushes for each of the at most
`rows * cols` cells that can be marked visited. -/
def floodReveal (b : Board) (r c : Int) (rows cols : Nat) : Board :=
  floodLoop rows cols (9 * rows * cols + 1) b (initVisited rows cols) [(r, c)]

/-- `checkWin(board, rows, cols)`: true iff no in-range cell is
simultaneously a non-mine and unrevealed. -/
def checkWin (b : Board) (rows cols : Nat) : Bool :=
  (cellIdx rows cols).all fun rc =>
    (getCellN b rc.1 rc.2).isMine || (getCellN b rc.1 rc.2).isRevealed

/-- The `revealedCells` counter of `getPlayerProgress`: in-range cells
that are not mines and are revealed. -/
def revealedNonMineCount (b : Board) (rows cols : Nat) : Nat :=
  (cellIdx rows cols).countP fun rc =>
    !(getCellN b rc.1 rc.2).isMine && (getCellN b rc.1 rc.2).isRevealed

/-- `getPlayerProgress(board, rows, cols, mines)`:
`Math.round((revealedCells / nonMineCells) * 100)` with
`nonMineCells = rows * cols - mines`, computed over `ℚ`. -/
def getPlayerProgress (b : Board) (rows cols mines : Nat) : Int :=
  round (((revealedNonMineCount b rows cols : ℚ) /
    ((rows * cols : ℚ) - (mines : ℚ))) * 100)

/-- The values taken by `room.gameState` anywhere in the server source:
the assigned strings `waiting`, `ready`, `playing`, `finished`, plus the
`post_game` value tested (but never assigned) by `returnToLobby` and the
disconnect handler. -/
inductive GameState
  | waiting | ready | playing | finished | postGame
deriving Repr, DecidableEq

/-- A player record as stored in `room.players`. The JavaScript objects
are created without a `wantsToPlayAgain` field; reading it then yields
`undefined`, which is falsy, so the embedding defaults it to `false`. -/
structure Player where
  id : String
  name : String
  ready : Bool
  isAdmin : Bool
  wantsToPlayAgain : Bool := false
deriving Repr, DecidableEq

/-- A room record. `gameStartTime` is `Date.now()` at start, else `null`. -/
structure Room where
  id : String
  difficulty : String
  players : List Player
  gameState : GameState
  seed : Int
  gameStartTime : Option Nat
  winner : Option String
deriving Repr, DecidableEq

/-- The `{rows, cols, mines}` record of `getDifficultySettings`. -/
structure DifficultySettings where
  rows : Nat
  cols : Nat
  mines : Nat
deriving Repr, DecidableEq

/-- `getDifficultySettings(difficulty)`: the lookup in the settings
object, with `settings.medium` as the `||` fallback for any unknown key. -/
def getDifficultySettings (d : String) : DifficultySettings :=
  if d = "easy" then ⟨8, 8, 10⟩
  else if d = "medium" then ⟨16, 16, 40⟩
  else if d = "hard" then ⟨20, 20, 100⟩
  else ⟨16, 16, 40⟩

/-- JavaScript's `x?.name || 'Unknown'` on an optional player-like value:
`undefined` and the empty string are both falsy. -/
def jsNameOr (s : Option String) : String :=
  match s with
  | none => "Unknown"
  | some n => if n = "" then "Unknown" else n

/-- The socket events emitted by the handlers modelled here, with the
payload fields the claims are about. -/
inductive Event
  | roomCreated (roomId : String)
  | countdownStarted (countdown : Nat) (fcRow fcCol : Int)
  | countdownUpdate (countdown : Nat)
  | gameStarted (board : Board) (fcRow fcCol : Int)
  | progressUpdate (progress : List (String × Int))
  | gameOver (winner loser : String) (winnerId : Option String) (loserId : String)
  | gameWon (winner : String) (winnerId : String)
  | boardUpdate (board : Board) (row col : Int) (playerId : String) (progress : Int)
  | gameReady
  | gameWaiting
  | playerReadyEvt (playerId : String)
  | playerLeft (playerId : String)
  | movedToNewRoom (roomId : String)
  | returnedToLobby
deriving Repr, DecidableEq

/-- The `playerBoards` entry of one room: `playerId -> board`. -/
abbrev PlayerBoards := List (String × Board)

/-- Assignment `playerBoardMap[sid] = b`: replace the first binding of
`sid`, or append a fresh one. -/
def PlayerBoards.store (pbs : PlayerBoards) (sid : String) (b : Board) : PlayerBoards :=
  match pbs with
  | [] => [(sid, b)]
  | (k, v) :: rest =>
    if k = sid then (k, b) :: rest else (k, v) :: PlayerBoards.store rest sid b

/-- Toggle the `ready` flag of the first player whose id matches, as the
in-place mutation after `room.players.find(...)` does. -/
def toggleReadyFirst : List Player → String → List Player
  | [], _ => []
  | p :: ps, sid =>
    if p.id = sid then { p with ready := !p.ready } :: ps
    else p :: toggleReadyFirst ps sid

/-- The `playerReady` handler: toggle the sender's flag, then move to
`ready` when at least two players are present and all are ready, else
fall back to `waiting` if the room was in `ready`. -/
def playerReady (room : Room) (sid : String) : Room × List Event :=
  match room.players.find? (fun p => p.id = sid) with
  | none => (room, [])
  | some _ =>
    let players' := toggleReadyFirst room.players sid
    if 2 ≤ players'.length ∧ players'.all (·.ready) then
      ({ room with players := players', gameState := .ready },
        [.playerReadyEvt sid, .gameReady])
    else if room.gameState = .ready then
      ({ room with players := players', gameState := .waiting },
        [.playerReadyEvt sid, .gameWaiting])
    else
      ({ room with players := players' }, [.playerReadyEvt sid])

/-- The progress object assembled by `room.players.forEach` with the
`if (pb)` guard. -/
def roomProgress (room : Room) (pbs : PlayerBoards) (st : DifficultySettings) :
    List (String × Int) :=
  room.players.filterMap fun p =>
    (pbs.lookup p.id).map fun b => (p.id, getPlayerProgress b st.rows st.cols st.mines)

/-- Everything the `startGame` handler has set up by the time the
countdown interval is armed. -/
structure StartResult where
  room : Room
  boards : PlayerBoards
  board : Board
  fcRow : Int
  fcCol : Int
  settings : DifficultySettings
  countdown : Nat
  events : List Event
deriving Repr, DecidableEq

/-- The synchronous part of the `startGame` handler. `none` covers the
guard rejections (fewer than two players, sender missing or not admin)
and a mine-placement loop that does not finish within the fuel. On
success the room is already in `playing`, every player holds a copy of
the flood-revealed board, and the five-step countdown is pending. -/
def startGame (f : Int → Frac) (room : Room) (sid : String) (now : Nat) (fuel : Nat)
    (pbs : PlayerBoards) : Option StartResult :=
  if room.players.length < 2 then none
  else
    match room.players.find? (fun p => p.id = sid) with
    | none => none
    | some p =>
      if p.isAdmin = false then none
      else
        let st := getDifficultySettings room.difficulty
        let fcRow := jsRandom f room.seed 0 0 ((st.rows : Int) - 1)
        let fcCol := jsRandom f room.seed 1 0 ((st.cols : Int) - 1)
        match generateBoardWithSeed f room.seed st.rows st.cols st.mines fcRow fcCol fuel with
        | none => none
        | some roomBoard =>
          let pbs1 := room.players.foldl (fun acc q => acc.store q.id roomBoard) pbs
          let revealedBoard := floodReveal roomBoard fcRow fcCol st.rows st.cols
          let pbs2 := room.players.foldl (fun acc q => acc.store q.id revealedBoard) pbs1
          some { room := { room with gameState := .playing, gameStartTime := some now },
                 boards := pbs2, board := revealedBoard,
                 fcRow := fcRow, fcCol := fcCol, settings := st, countdown := 5,
                 events := [.countdownStarted 5 fcRow fcCol] }

/-- One firing of the countdown interval: decrement, broadcast the new
value, and at zero clear the interval and broadcast `gameStarted` plus
the initial progress. -/
def countdownTick (room : Room) (pbs : PlayerBoards) (bd : Board) (fcR fcC : Int)
    (st : DifficultySettings) (cd : Nat) : Nat × List Event :=
  let c := cd - 1
  if c = 0 then
    (c, [.countdownUpdate c, .gameStarted bd fcR fcC,
      .progressUpdate (roomProgress room pbs st)])
  else (c, [.countdownUpdate c])

/-- Run `k` firings of the countdown interval, stopping once the
interval has been cleared (countdown at zero). -/
def runTicks (room : Room) (pbs : PlayerBoards) (bd : Board) (fcR fcC : Int)
    (st : DifficultySettings) : Nat → Nat → Nat × List Event
  | 0, cd => (cd, [])
  | k + 1, cd =>
    if cd = 0 then (cd, [])
    else
      let t := countdownTick room pbs bd fcR fcC st cd
      let rest := runTicks room pbs bd fcR fcC st k t.1
      (rest.1, t.2 ++ rest.2)

/-- Whether a `gameStarted` event occurs in the list. -/
def hasGameStarted (evs : List Event) : Bool :=
  evs.any fun e =>
    match e with
    | .gameStarted _ _ _ => true
    | _ => false

/-- Reveal every mine of a board, leaving all other cells untouched —
the `map` in the mine-hit branch of `cellClick`. -/
def revealAllMines (b : Board) : Board :=
  b.map fun row => row.map fun c =>
    if c.isMine then { c with isRevealed := true } else c

/-- Result of `cellClick`/`cellFlag`: `noop` when a guard returns early
with nothing mutated, `typeError` when `playerBoard[row][col]` is an
access on `undefined` and the handler throws, `ok` otherwise. -/
inductive ClickOutcome
  | noop
  | typeError
  | ok (room : Room) (boards : PlayerBoards) (events : List Event)
deriving DecidableEq

/-- The `cellClick` handler for a room in hand (the `rooms.get` and
`playerBoards.get` misses collapse into the guards). -/
def cellClick (room : Room) (pbs : PlayerBoards) (sid : String) (row col : Int) :
    ClickOutcome :=
  if room.gameState ≠ .playing then .noop
  else
    match pbs.lookup sid with
    | none => .noop
    | some playerBoard =>
      let st := getDifficultySettings room.difficulty
      match getCell? playerBoard row col with
      | none => .typeError
      | some cell =>
        if cell.isFlagged then .noop
        else if cell.isMine then
          let newBoard := revealAllMines playerBoard
          let pbs' := pbs.store sid newBoard
          let other := room.players.find? (fun p => p.id ≠ sid)
          let current := room.players.find? (fun p => p.id = sid)
          let winnerName := jsNameOr (other.map (·.name))
          .ok { room with gameState := .finished, winner := some winnerName } pbs'
            [.gameOver winnerName (jsNameOr (current.map (·.name))) (other.map (·.id)) sid]
        else
          let newBoard := floodReveal playerBoard row col st.rows st.cols
          let pbs' := pbs.store sid newBoard
          if checkWin newBoard st.rows st.cols then
            let current := room.players.find? (fun p => p.id = sid)
            let winnerName := jsNameOr (current.map (·.name))
            .ok { room with gameState := .finished, winner := some winnerName } pbs'
              [.gameWon winnerName sid]
          else
            let progress := getPlayerProgress newBoard st.rows st.cols st.mines
            let allProgress := roomProgress room pbs' st
            .ok room pbs'
              ([.boardUpdate newBoard row col sid progress, .progressUpdate allProgress] ++
                (if allProgress.length ≠ 0 then [.progressUpdate allProgress] else []))

/-- The `cellFlag` handler. -/
def cellFlag (room : Room) (pbs : PlayerBoards) (sid : String) (row col : Int) :
    ClickOutcome :=
  if room.gameState ≠ .playing then .noop
  else
    match pbs.lookup sid with
    | none => .noop
    | some playerBoard =>
      match getCell? playerBoard row col with
      | none => .typeError
      | some cell =>
        if cell.isRevealed then .noop
        else
          let cell' := { cell with isFlagged := !cell.isFlagged }
          let newBoard := setCellZ playerBoard row col cell'
          let pbs' := pbs.store sid newBoard
          let st := getDifficultySettings room.difficulty
          .ok room pbs'
            [.boardUpdate newBoard row col sid
              (getPlayerProgress newBoard st.rows st.cols st.mines)]

/-- Remove the first player whose id matches (`findIndex` + `splice`). -/
def removeFirstPlayer : List Player → String → List Player
  | [], _ => []
  | p :: ps, sid => if p.id = sid then ps else p :: removeFirstPlayer ps sid

/-- Result of `returnToLobby`: either the requester is split into a
brand-new room, or they are removed normally; the old room is `none`
once empty (deleted from the `rooms` map). -/
inductive LobbyOutcome
  | noop
  | moved (newRoom : Room) (oldRoom : Option Room) (events : List Event)
  | returned (oldRoom : Option Room) (events : List Event)
deriving Repr, DecidableEq

/-- The `returnToLobby` handler. The fresh room id and seed (both drawn
from `Math.random()`) are parameters. -/
def returnToLobby (room : Room) (sid : String) (freshId : String) (freshSeed : Int) :
    LobbyOutcome :=
  match room.players.find? (fun p => p.id = sid) with
  | none => .noop
  | some cur =>
    if cur.wantsToPlayAgain = true ∧ room.gameState = .postGame then
      let newRoom : Room :=
        { id := freshId, difficulty := room.difficulty,
          players := [{ id := sid, name := cur.name, ready := false, isAdmin := true }],
          gameState := .waiting, seed := freshSeed, gameStartTime := none, winner := none }
      let players' := removeFirstPlayer room.players sid
      .moved newRoom
        (if players'.length = 0 then none else some { room with players := players' })
        [.playerLeft sid, .movedToNewRoom freshId]
    else
      let players' := removeFirstPlayer room.players sid
      .returned
        (if players'.length = 0 then none else some { room with players := players' })
        [.playerLeft sid, .returnedToLobby]

/-! ### Grid access lemmas -/

theorem gridGet_eq_getElem? (g : List (List α)) (d : α) (r c : Nat) :
    gridGet g d r c = (((g[r]?).getD [])[c]?).getD d := by
  simp [gridGet]

theorem getD_set_self_of_lt (l : List α) (a d : α) (c : Nat) (hc : c < l.length) :
    (l.set c a).getD c d = a := by
  simp [List.getD_eq_getElem?_getD, List.getElem?_set_self hc]

theorem getD_set_ne_idx (l : List α) (a d : α) (c c' : Nat) (h : c' ≠ c) :
    (l.set c' a).getD c d = l.getD c d := by
  simp [List.getD_eq_getElem?_getD, List.getElem?_set_ne h]

theorem gridGet_gridSet_ite (g : List (List α)) (d a : α) (r' c' r c : Nat) :
    gridGet (gridSet g r' c' a) d r c =
      if r = r' ∧ c = c' ∧ r < g.length ∧ c < (g.getD r []).length then a
      else gridGet g d r c := by
  by_cases hr : r = r'
  case neg =>
    rw [if_neg (by tauto)]
    simp only [gridGet_eq_getElem?, gridSet]
    rw [List.getElem?_set_ne (by omega)]
  case pos =>
    subst hr
    by_cases hl : r < g.length
    case neg =>
      rw [if_neg (by tauto)]
      show gridGet (g.set r ((g.getD r []).set c' a)) d r c = gridGet g d r c
      rw [List.set_eq_of_length_le (by omega)]
    case pos =>
      have hrow : gridGet (gridSet g r c' a) d r c = ((g.getD r []).set c' a).getD c d := by
        show ((g.set r ((g.getD r []).set c' a)).getD r []).getD c d = _
        have : (g.set r ((g.getD r []).set c' a)).getD r [] = (g.getD r []).set c' a := by
          simp [List.getD_eq_getElem?_getD, List.getElem?_set_self hl]
        rw [this]
      rw [hrow]
      by_cases hc : c = c'
      case neg =>
        rw [if_neg (by tauto)]
        exact getD_set_ne_idx _ _ _ _ _ (by omega)
      case pos =>
        subst hc
        by_cases hcl : c < (g.getD r []).length
        case pos =>
          rw [if_pos ⟨rfl, rfl, hl, hcl⟩]
          exact getD_set_self_of_lt _ _ _ _ hcl
        case neg =>
          rw [if_neg (by tauto), List.set_eq_of_length_le (by omega)]
          rfl

theorem gridGet_gridSet_self (g : List (List α)) (d a : α) (r c : Nat)
    (hr : r < g.length) (hc : c < (g.getD r []).length) :
    gridGet (gridSet g r c a) d r c = a := by
  rw [gridGet_gridSet_ite, if_pos ⟨rfl, rfl, hr, hc⟩]

theorem gridGet_gridSet_ne (g : List (List α)) (d a : α) (r' c' r c : Nat)
    (h : r ≠ r' ∨ c ≠ c') :
    gridGet (gridSet g r' c' a) d r c = gridGet g d r c := by
  rw [gridGet_gridSet_ite, if_neg (by tauto)]

theorem gridGet_gridSet_or (g : List (List α)) (d a : α) (r' c' r c : Nat) :
    gridGet (gridSet g r' c' a) d r c = gridGet g d r c ∨
      gridGet (gridSet g r' c' a) d r c = a := by
  rw [gridGet_gridSet_ite]
  by_cases h : r = r' ∧ c = c' ∧ r < g.length ∧ c < (g.getD r []).length
  · rw [if_pos h]; exact Or.inr rfl
  · rw [if_neg h]; exact Or.inl rfl

theorem gridGet_replicate (rows cols : Nat) (x d : α) (r c : Nat) :
    gridGet (List.replicate rows (List.replicate cols x)) d r c =
      if r < rows ∧ c < cols then x else d := by
  rw [gridGet_eq_getElem?, List.getElem?_replicate]
  by_cases hr : r < rows
  · rw [if_pos hr, Option.getD_some, List.getElem?_replicate]
    by_cases hc : c < cols
    · rw [if_pos hc, if_pos ⟨hr, hc⟩, Option.getD_some]
    · rw [if_neg hc, if_neg (by tauto), Option.getD_none]
  · rw [if_neg hr, if_neg (by tauto)]
    rfl

theorem length_gridSet (g : List (List α)) (r c : Nat) (a : α) :
    (gridSet g r c a).length = g.length := by
  simp [gridSet]

theorem getD_mem_of_lt (g : List (List α)) (r : Nat) (hr : r < g.length) :
    g.getD r [] ∈ g := by
  rw [List.getD_eq_getElem?_getD, List.getElem?_eq_getElem hr, Option.getD_some]
  exact List.getElem_mem hr

theorem dims_gridSet (g : List (List α)) (r c : Nat) (a : α) (rows cols : Nat)
    (h1 : g.length = rows) (h2 : ∀ row ∈ g, row.length = cols) :
    (gridSet g r c a).length = rows ∧ ∀ row ∈ gridSet g r c a, row.length = cols := by
  refine ⟨by rw [length_gridSet, h1], ?_⟩
  intro row hrow
  by_cases hr : r < g.length
  · rcases List.mem_or_eq_of_mem_set hrow with h | h
    · exact h2 _ h
    · subst h
      rw [List.length_set]
      exact h2 _ (getD_mem_of_lt g r hr)
  · rw [show gridSet g r c a = g from List.set_eq_of_length_le (by omega)] at hrow
    exact h2 _ hrow

/-! ### Lemmas about the player-board map -/

theorem lookup_store_self (pbs : PlayerBoards) (k : String) (b : Board) :
    (pbs.store k b).lookup k = some b := by
  induction pbs with
  | nil => simp [PlayerBoards.store, List.lookup]
  | cons kv rest ih =>
    obtain ⟨k', v⟩ := kv
    by_cases h : k' = k
    · subst h
      simp [PlayerBoards.store, List.lookup]
    · have hbeq : (k == k') = false := by simp [Ne.symm h]
      simp only [PlayerBoards.store, if_neg h, List.lookup, hbeq]
      exact ih

theorem lookup_store_ne (pbs : PlayerBoards) (k k' : String) (b : Board)
    (h : k' ≠ k) : (pbs.store k b).lookup k' = pbs.lookup k' := by
  have hbeq : (k' == k) = false := by simp [h]
  induction pbs with
  | nil => simp [PlayerBoards.store, List.lookup, hbeq]
  | cons kv rest ih =>
    obtain ⟨k0, v⟩ := kv
    by_cases h0 : k0 = k
    · subst h0
      simp only [PlayerBoards.store, if_pos rfl, List.lookup, hbeq]
    · simp only [PlayerBoards.store, if_neg h0, List.lookup]
      cases hbeq0 : (k' == k0) with
      | true => rfl
      | false => exact ih

/-! ### Counting lemmas -/

theorem countP_update (l : List (Nat × Nat)) (p q : Nat × Nat → Bool) (a₀ : Nat × Nat)
    (hnd : l.Nodup) (hmem : a₀ ∈ l) (hq : ∀ a ∈ l, a ≠ a₀ → q a = p a)
    (hp0 : p a₀ = false) (hq0 : q a₀ = true) :
    l.countP q = l.countP p + 1 := by
  induction l with
  | nil => simp at hmem
  | cons a t ih =>
    have hhead : a ∉ t := (List.nodup_cons.mp hnd).1
    have htail : t.Nodup := (List.nodup_cons.mp hnd).2
    by_cases h : a₀ = a
    · subst h
      have heq : t.countP q = t.countP p := by
        apply List.countP_congr
        intro x hx
        have : x ≠ a₀ := fun hxa => hhead (hxa ▸ hx)
        rw [hq x (List.mem_cons_of_mem _ hx) this]
      rw [List.countP_cons, List.countP_cons, heq, hp0, hq0]
      simp
    · have hmt : a₀ ∈ t := by
        rcases List.mem_cons.mp hmem with h1 | h1
        · exact absurd h1 h
        · exact h1
      have hqa : q a = p a := hq a (List.mem_cons_self a t) (fun hh => h hh.symm)
      have ht : t.countP q = t.countP p + 1 :=
        ih htail hmt (fun x hx hxa => hq x (List.mem_cons_of_mem _ hx) hxa)
      rw [List.countP_cons, List.countP_cons, ht, hqa]
      omega

theorem cellIdx_nodup (rows cols : Nat) : (cellIdx rows cols).Nodup :=
  (List.nodup_range rows).product (List.nodup_range cols)

theorem mem_cellIdx (rows cols r c : Nat) :
    (r, c) ∈ cellIdx rows cols ↔ r < rows ∧ c < cols := by
  unfold cellIdx
  rw [List.mem_product, List.mem_range, List.mem_range]

/-! ### Draw bounds and mine-placement invariants -/

theorem jsRandom_lb (f : Int → Frac) (seed : Int) (counter : Nat) (hi : Int) :
    0 ≤ jsRandom f seed counter 0 hi := by
  unfold jsRandom
  positivity

theorem jsRandom_ub (f : Int → Frac) (hf : FracOracle f) (seed : Int) (counter : Nat)
    (n : Nat) (hn : 0 < n) :
    jsRandom f seed counter 0 ((n : Int) - 1) < (n : Int) := by
  unfold jsRandom
  have hden := hf (seed + counter)
  have hrange : ((n : Int) - 1 - 0 + 1).toNat = n := by omega
  rw [hrange]
  have hdiv : (f (seed + counter)).num * n / (f (seed + counter)).den < n := by
    rw [Nat.div_lt_iff_lt_mul (by omega)]
    calc (f (seed + counter)).num * n < (f (seed + counter)).den * n :=
          (Nat.mul_lt_mul_right hn).mpr hden
      _ = n * (f (seed + counter)).den := Nat.mul_comm _ _
  omega

/-- Mines are nowhere in the safe zone (out-of-range reads return the
fresh non-mine cell, so the statement quantifies over all coordinates). -/
def SafeClear (b : Board) (rows cols : Nat) (safeR safeC : Int) : Prop :=
  ∀ r c : Int, inSafeZone rows cols safeR safeC r c = true → (getCellZ b r c).isMine = false

theorem getCellZ_nonneg (b : Board) (r c : Int) (hr : 0 ≤ r) (hc : 0 ≤ c) :
    getCellZ b r c = getCellN b r.toNat c.toNat := if_pos ⟨hr, hc⟩

theorem getCellZ_neg (b : Board) (r c : Int) (h : ¬(0 ≤ r ∧ 0 ≤ c)) :
    getCellZ b r c = Cell.init := if_neg h

theorem boardDims_setCellZ (b : Board) (r c : Int) (cell : Cell) (rows cols : Nat)
    (h : BoardDims b rows cols) : BoardDims (setCellZ b r c cell) rows cols := by
  unfold setCellZ
  by_cases hpos : 0 ≤ r ∧ 0 ≤ c
  · rw [if_pos hpos]
    exact dims_gridSet b r.toNat c.toNat cell rows cols h.1 h.2
  · rw [if_neg hpos]
    exact h

theorem rowLen_of_dims (b : Board) (rows cols : Nat) (h : BoardDims b rows cols)
    (r : Nat) (hr : r < rows) : (b.getD r []).length = cols :=
  h.2 _ (getD_mem_of_lt b r (by rw [h.1]; exact hr))

theorem mineCount_setMine (b : Board) (rows cols : Nat) (r c : Int) (cell : Cell)
    (hr0 : 0 ≤ r) (hr : r < (rows : Int)) (hc0 : 0 ≤ c) (hc : c < (cols : Int))
    (hdims : BoardDims b rows cols) (hmine : cell.isMine = true)
    (hnm : (getCellZ b r c).isMine = false) :
    gridMineCount (setCellZ b r c cell) rows cols = gridMineCount b rows cols + 1 := by
  have hrn : r.toNat < rows := by omega
  have hcn : c.toNat < cols := by omega
  have hset : setCellZ b r c cell = gridSet b r.toNat c.toNat cell := if_pos ⟨hr0, hc0⟩
  unfold gridMineCount
  apply countP_update _ _ _ (r.toNat, c.toNat) (cellIdx_nodup rows cols)
    ((mem_cellIdx rows cols _ _).mpr ⟨hrn, hcn⟩)
  · intro a _ hne
    rw [hset]
    show (gridGet (gridSet b r.toNat c.toNat cell) Cell.init a.1 a.2).isMine =
      (gridGet b Cell.init a.1 a.2).isMine
    rw [gridGet_gridSet_ne]
    by_cases h1 : a.1 = r.toNat
    · right
      intro h2
      exact hne (Prod.ext h1 h2)
    · left
      exact h1
  · rw [getCellZ_nonneg b r c hr0 hc0] at hnm
    exact hnm
  · show (getCellN (setCellZ b r c cell) r.toNat c.toNat).isMine = true
    rw [hset]
    show (gridGet (gridSet b r.toNat c.toNat cell) Cell.init r.toNat c.toNat).isMine = true
    rw [gridGet_gridSet_self]
    · exact hmine
    · rw [hdims.1]; exact hrn
    · rw [rowLen_of_dims b rows cols hdims r.toNat hrn]
      exact hcn

theorem safeClear_setMine (b : Board) (rows cols : Nat) (safeR safeC r c : Int)
    (cell : Cell) (hr0 : 0 ≤ r) (hc0 : 0 ≤ c)
    (hsafe : inSafeZone rows cols safeR safeC r c = false)
    (hclear : SafeClear b rows cols safeR safeC) :
    SafeClear (setCellZ b r c cell) rows cols safeR safeC := by
  intro r' c' hz
  by_cases hpos : 0 ≤ r' ∧ 0 ≤ c'
  · by_cases heq : r' = r ∧ c' = c
    · obtain ⟨rfl, rfl⟩ := heq
      rw [hz] at hsafe
      exact absurd hsafe (by simp)
    · rw [getCellZ_nonneg _ _ _ hpos.1 hpos.2]
      rw [show setCellZ b r c cell = gridSet b r.toNat c.toNat cell from if_pos ⟨hr0, hc0⟩]
      show (gridGet (gridSet b r.toNat c.toNat cell) Cell.init r'.toNat c'.toNat).isMine = false
      rw [gridGet_gridSet_ne _ _ _ _ _ _ _ (by omega)]
      have hb := hclear r' c' hz
      rw [getCellZ_nonneg _ _ _ hpos.1 hpos.2] at hb
      exact hb
  · rw [getCellZ_neg _ _ _ hpos]
    rfl

theorem placeMines_spec (f : Int → Frac) (hf : FracOracle f) (seed : Int)
    (rows cols mines : Nat) (safeR safeC : Int) (hrows : 0 < rows) (hcols : 0 < cols) :
    ∀ fuel counter placed b,
      BoardDims b rows cols →
      gridMineCount b rows cols = placed →
      placed ≤ mines →
      SafeClear b rows cols safeR safeC →
      ∀ b', placeMines f seed rows cols mines safeR safeC fuel counter placed b = some b' →
        BoardDims b' rows cols ∧ gridMineCount b' rows cols = mines ∧
          SafeClear b' rows cols safeR safeC := by
  intro fuel
  induction fuel with
  | zero =>
    intro counter placed b hdims hcount hle hclear b' hrun
    simp only [placeMines] at hrun
    by_cases h : mines ≤ placed
    · rw [if_pos h] at hrun
      obtain rfl : b = b' := Option.some.inj hrun
      exact ⟨hdims, by omega, hclear⟩
    · rw [if_neg h] at hrun
      simp at hrun
  | succ fuel ih =>
    intro counter placed b hdims hcount hle hclear b' hrun
    simp only [placeMines] at hrun
    by_cases h : mines ≤ placed
    · rw [if_pos h] at hrun
      obtain rfl : b = b' := Option.some.inj hrun
      exact ⟨hdims, by omega, hclear⟩
    · rw [if_neg h] at hrun
      have hr0 : 0 ≤ jsRandom f seed counter 0 ((rows : Int) - 1) := jsRandom_lb f seed counter _
      have hrlt : jsRandom f seed counter 0 ((rows : Int) - 1) < (rows : Int) :=
        jsRandom_ub f hf seed counter rows hrows
      have hc0 : 0 ≤ jsRandom f seed (counter + 1) 0 ((cols : Int) - 1) :=
        jsRandom_lb f seed (counter + 1) _
      have hclt : jsRandom f seed (counter + 1) 0 ((cols : Int) - 1) < (cols : Int) :=
        jsRandom_ub f hf seed (counter + 1) cols hcols
      by_cases hcond : (getCellZ b (jsRandom f seed counter 0 ((rows : Int) - 1))
            (jsRandom f seed (counter + 1) 0 ((cols : Int) - 1))).isMine = false ∧
          inSafeZone rows cols safeR safeC (jsRandom f seed counter 0 ((rows : Int) - 1))
            (jsRandom f seed (counter + 1) 0 ((cols : Int) - 1)) = false
      · rw [if_pos hcond] at hrun
        refine ih (counter + 2) (placed + 1) _ ?_ ?_ (by omega) ?_ b' hrun
        · exact boardDims_setCellZ _ _ _ _ rows cols hdims
        · rw [mineCount_setMine b rows cols _ _ _ hr0 hrlt hc0 hclt hdims rfl hcond.1, hcount]
        · exact safeClear_setMine b rows cols safeR safeC _ _ _ hr0 hc0 hcond.2 hclear
      · rw [if_neg hcond] at hrun
        exact ih (counter + 2) placed b hdims hcount (by omega) hclear b' hrun

theorem computeAdjacency_dims (b : Board) (rows cols : Nat) :
    BoardDims (computeAdjacency b rows cols) rows cols := by
  constructor
  · simp [computeAdjacency]
  · intro row hrow
    simp only [computeAdjacency, List.mem_map] at hrow
    obtain ⟨r, _, rfl⟩ := hrow
    simp

theorem getCellN_computeAdjacency (b : Board) (rows cols r c : Nat)
    (hr : r < rows) (hc : c < cols) :
    getCellN (computeAdjacency b rows cols) r c =
      (if (getCellN b r c).isMine then getCellN b r c
       else { getCellN b r c with
                adjacentMines := adjacentMineCount b rows cols (r : Int) (c : Int) }) := by
  show gridGet (computeAdjacency b rows cols) Cell.init r c = _
  rw [gridGet_eq_getElem?]
  unfold computeAdjacency
  rw [List.getElem?_map, List.getElem?_range hr]
  simp only [Option.map_some', Option.getD_some, List.getElem?_map, List.getElem?_range hc]

theorem getCellN_computeAdjacency_oob (b : Board) (rows cols r c : Nat)
    (h : ¬(r < rows ∧ c < cols)) :
    getCellN (computeAdjacency b rows cols) r c = Cell.init := by
  show gridGet (computeAdjacency b rows cols) Cell.init r c = _
  rw [gridGet_eq_getElem?]
  unfold computeAdjacency
  by_cases hr : r < rows
  · rw [List.getElem?_map, List.getElem?_range hr]
    simp only [Option.map_some', Option.getD_some, List.getElem?_map]
    have hc : ¬ c < cols := by tauto
    rw [show (List.range cols)[c]? = none from List.getElem?_eq_none (by simpa using hc)]
    rfl
  · rw [List.getElem?_map,
      show (List.range rows)[r]? = none from List.getElem?_eq_none (by simpa using hr)]
    rfl

theorem computeAdjacency_isMine (b : Board) (rows cols r c : Nat) :
    (getCellN (computeAdjacency b rows cols) r c).isMine =
      if r < rows ∧ c < cols then (getCellN b r c).isMine else false := by
  by_cases h : r < rows ∧ c < cols
  · rw [if_pos h, getCellN_computeAdjacency b rows cols r c h.1 h.2]
    by_cases hm : (getCellN b r c).isMine
    · rw [if_pos hm]
    · rw [if_neg hm]
  · rw [if_neg h, getCellN_computeAdjacency_oob b rows cols r c h]
    rfl

theorem gridMineCount_computeAdjacency (b : Board) (rows cols : Nat) :
    gridMineCount (computeAdjacency b rows cols) rows cols = gridMineCount b rows cols := by
  unfold gridMineCount
  apply List.countP_congr
  intro rc hrc
  obtain ⟨h1, h2⟩ := (mem_cellIdx rows cols rc.1 rc.2).mp hrc
  rw [computeAdjacency_isMine b rows cols rc.1 rc.2, if_pos ⟨h1, h2⟩]

theorem safeClear_computeAdjacency (b : Board) (rows cols : Nat) (safeR safeC : Int)
    (h : SafeClear b rows cols safeR safeC) :
    SafeClear (computeAdjacency b rows cols) rows cols safeR safeC := by
  intro r c hz
  by_cases hpos : 0 ≤ r ∧ 0 ≤ c
  · rw [getCellZ_nonneg _ _ _ hpos.1 hpos.2,
      computeAdjacency_isMine b rows cols r.toNat c.toNat]
    by_cases hin : r.toNat < rows ∧ c.toNat < cols
    · rw [if_pos hin]
      have hb := h r c hz
      rw [getCellZ_nonneg _ _ _ hpos.1 hpos.2] at hb
      exact hb
    · rw [if_neg hin]
  · rw [getCellZ_neg _ _ _ hpos]
    rfl

theorem initBoard_dims (rows cols : Nat) : BoardDims (initBoard rows cols) rows cols := by
  constructor
  · simp [initBoard]
  · intro row hrow
    rw [List.eq_of_mem_replicate hrow]
    simp

theorem getCellN_initBoard (rows cols r c : Nat) :
    getCellN (initBoard rows cols) r c = Cell.init := by
  show gridGet (List.replicate rows (List.replicate cols Cell.init)) Cell.init r c = Cell.init
  rw [gridGet_replicate]
  by_cases h : r < rows ∧ c < cols
  · rw [if_pos h]
  · rw [if_neg h]

theorem gridMineCount_initBoard (rows cols : Nat) :
    gridMineCount (initBoard rows cols) rows cols = 0 := by
  unfold gridMineCount
  rw [List.countP_eq_zero]
  intro rc _
  rw [getCellN_initBoard]
  simp [Cell.init]

theorem safeClear_initBoard (rows cols : Nat) (safeR safeC : Int) :
    SafeClear (initBoard rows cols) rows cols safeR safeC := by
  intro r c _
  by_cases hpos : 0 ≤ r ∧ 0 ≤ c
  · rw [getCellZ_nonneg _ _ _ hpos.1 hpos.2, getCellN_initBoard]
    rfl
  · rw [getCellZ_neg _ _ _ hpos]
    rfl

theorem generateBoard_props (f : Int → Frac) (hf : FracOracle f) (seed : Int)
    (rows cols mines : Nat) (safeR safeC : Int) (fuel : Nat) (b : Board)
    (hrows : 0 < rows) (hcols : 0 < cols)
    (hgen : generateBoardWithSeed f seed rows cols mines safeR safeC fuel = some b) :
    BoardDims b rows cols ∧ gridMineCount b rows cols = mines ∧
      SafeClear b rows cols safeR safeC := by
  unfold generateBoardWithSeed at hgen
  rw [Option.map_eq_some'] at hgen
  obtain ⟨pb, hpb, rfl⟩ := hgen
  obtain ⟨hdims, hcount, hclear⟩ :=
    placeMines_spec f hf seed rows cols mines safeR safeC hrows hcols fuel 0 0
      (initBoard rows cols) (initBoard_dims rows cols) (gridMineCount_initBoard rows cols)
      (Nat.zero_le mines) (safeClear_initBoard rows cols safeR safeC) pb hpb
  exact ⟨computeAdjacency_dims pb rows cols,
    by rw [gridMineCount_computeAdjacency, hcount],
    safeClear_computeAdjacency pb rows cols safeR safeC hclear⟩

/-! ### Flood-fill lemmas -/

theorem floodLoop_nil (rows cols fuel : Nat) (b : Board) (v : List (List Bool)) :
    floodLoop rows cols fuel b v [] = b := by
  cases fuel <;> rfl

theorem getCellZ_setCellZ_or (b : Board) (r' c' r c : Int) (cell : Cell) :
    getCellZ (setCellZ b r' c' cell) r c = getCellZ b r c ∨
      getCellZ (setCellZ b r' c' cell) r c = cell := by
  unfold setCellZ
  by_cases hset : 0 ≤ r' ∧ 0 ≤ c'
  · rw [if_pos hset]
    by_cases hget : 0 ≤ r ∧ 0 ≤ c
    · rw [getCellZ_nonneg _ _ _ hget.1 hget.2, getCellZ_nonneg _ _ _ hget.1 hget.2]
      exact gridGet_gridSet_or b Cell.init cell r'.toNat c'.toNat r.toNat c.toNat
    · rw [getCellZ_neg _ _ _ hget, getCellZ_neg _ _ _ hget]
      exact Or.inl rfl
  · rw [if_neg hset]
    exact Or.inl rfl

theorem getCellZ_setCellZ_self (b : Board) (r c : Int) (cell : Cell)
    (hr0 : 0 ≤ r) (hc0 : 0 ≤ c) (hrl : r.toNat < b.length)
    (hcl : c.toNat < (b.getD r.toNat []).length) :
    getCellZ (setCellZ b r c cell) r c = cell := by
  rw [show setCellZ b r c cell = gridSet b r.toNat c.toNat cell from if_pos ⟨hr0, hc0⟩,
    getCellZ_nonneg _ _ _ hr0 hc0]
  exact gridGet_gridSet_self b Cell.init cell r.toNat c.toNat hrl hcl

theorem getVisited_init (rows cols : Nat) (r c : Int) :
    getVisited (initVisited rows cols) r c = false := by
  unfold getVisited initVisited
  by_cases h : 0 ≤ r ∧ 0 ≤ c
  · rw [if_pos h, gridGet_replicate]
    by_cases h2 : r.toNat < rows ∧ c.toNat < cols
    · rw [if_pos h2]
    · rw [if_neg h2]
  · rw [if_neg h]

theorem floodLoop_mono (rows cols : Nat) :
    ∀ fuel (b : Board) (v : List (List Bool)) (st : List (Int × Int)) (r c : Int),
      (getCellZ b r c).isRevealed = true →
      (getCellZ (floodLoop rows cols fuel b v st) r c).isRevealed = true := by
  intro fuel
  induction fuel with
  | zero =>
    intro b v st r c h
    cases st with
    | nil => rw [floodLoop_nil]; exact h
    | cons p rest => exact h
  | succ fuel ih =>
    intro b v st r c h
    cases st with
    | nil => rw [floodLoop_nil]; exact h
    | cons p rest =>
      obtain ⟨cr, cc⟩ := p
      show (getCellZ (floodLoop rows cols (fuel + 1) b v ((cr, cc) :: rest)) r c).isRevealed = true
      rw [floodLoop]
      split
      · exact ih _ _ _ _ _ h
      · apply ih
        rcases getCellZ_setCellZ_or b cr cc r c
            { getCellZ b cr cc with isRevealed := true } with heq | heq
        · rw [heq]
          exact h
        · rw [heq]

theorem floodReveal_of_blocked (b : Board) (r c : Int) (rows cols : Nat)
    (h : (getCellZ b r c).isRevealed = true ∨ (getCellZ b r c).isFlagged = true) :
    floodReveal b r c rows cols = b := by
  unfold floodReveal
  rw [floodLoop]
  rw [if_pos (by tauto)]
  exact floodLoop_nil rows cols _ b _

theorem floodReveal_reveals_origin (b : Board) (r c : Int) (rows cols : Nat)
    (hdims : BoardDims b rows cols)
    (hr0 : 0 ≤ r) (hr : r < (rows : Int)) (hc0 : 0 ≤ c) (hc : c < (cols : Int))
    (hflag : (getCellZ b r c).isFlagged = false) :
    (getCellZ (floodReveal b r c rows cols) r c).isRevealed = true := by
  by_cases hrev : (getCellZ b r c).isRevealed = true
  · rw [floodReveal_of_blocked b r c rows cols (Or.inl hrev)]
    exact hrev
  · unfold floodReveal
    rw [floodLoop]
    rw [if_neg (by
      push_neg
      refine ⟨by omega, by omega, by omega, by omega, ?_, ?_, ?_⟩
      · rw [getVisited_init]
        simp
      · simpa using hrev
      · simp [hflag])]
    apply floodLoop_mono
    rw [getCellZ_setCellZ_self b r c _ hr0 hc0 (by rw [hdims.1]; omega)
      (by rw [rowLen_of_dims b rows cols hdims r.toNat (by omega)]; omega)]

/-! ### Win-check and progress lemmas -/

theorem checkWin_iff (b : Board) (rows cols : Nat) :
    checkWin b rows cols = true ↔
      ∀ r, r < rows → ∀ c, c < cols →
        (getCellN b r c).isMine = false → (getCellN b r c).isRevealed = true := by
  unfold checkWin
  rw [List.all_eq_true]
  constructor
  · intro h r hr c hc hm
    have h2 := h (r, c) ((mem_cellIdx rows cols r c).mpr ⟨hr, hc⟩)
    simp only [Bool.or_eq_true] at h2
    rcases h2 with h2 | h2
    · rw [hm] at h2
      exact absurd h2 (by simp)
    · exact h2
  · intro h rc hrc
    obtain ⟨h1, h2⟩ := (mem_cellIdx rows cols rc.1 rc.2).mp hrc
    simp only [Bool.or_eq_true]
    by_cases hm : (getCellN b rc.1 rc.2).isMine = true
    · exact Or.inl hm
    · exact Or.inr (h rc.1 h1 rc.2 h2 (by simpa using hm))

theorem all_congr_mem (l : List (Nat × Nat)) (p q : Nat × Nat → Bool)
    (h : ∀ a ∈ l, p a = q a) : l.all p = l.all q := by
  induction l with
  | nil => rfl
  | cons a t ih =>
    rw [List.all_cons, List.all_cons, h a (List.mem_cons_self a t),
      ih (fun x hx => h x (List.mem_cons_of_mem _ hx))]

theorem checkWin_congr (b b' : Board) (rows cols : Nat)
    (h : ∀ r, r < rows → ∀ c, c < cols →
      (getCellN b' r c).isMine = (getCellN b r c).isMine ∧
      (getCellN b' r c).isRevealed = (getCellN b r c).isRevealed) :
    checkWin b' rows cols = checkWin b rows cols := by
  unfold checkWin
  apply all_congr_mem
  intro rc hrc
  obtain ⟨h1, h2⟩ := (mem_cellIdx rows cols rc.1 rc.2).mp hrc
  rw [(h rc.1 h1 rc.2 h2).1, (h rc.1 h1 rc.2 h2).2]

/-- Count of non-mine cells on the grid. -/
def gridNonMineCount (b : Board) (rows cols : Nat) : Nat :=
  (cellIdx rows cols).countP (fun rc => !(getCellN b rc.1 rc.2).isMine)

theorem countP_bool_split (l : List (Nat × Nat)) (p : Nat × Nat → Bool) :
    l.countP p + l.countP (fun a => !(p a)) = l.length := by
  induction l with
  | nil => rfl
  | cons a t ih =>
    rw [List.countP_cons, List.countP_cons, List.length_cons]
    by_cases h : p a = true
    · rw [h, if_pos rfl, if_neg (by simp)]
      omega
    · have h1 : p a = false := by simpa using h
      rw [h1, if_neg (by simp), if_pos (by simp)]
      omega

theorem gridNonMineCount_eq (b : Board) (rows cols : Nat) :
    gridMineCount b rows cols + gridNonMineCount b rows cols = rows * cols := by
  have h := countP_bool_split (cellIdx rows cols)
    (fun rc => (getCellN b rc.1 rc.2).isMine)
  have hlen : (cellIdx rows cols).length = rows * cols := by
    unfold cellIdx
    rw [List.length_product, List.length_range, List.length_range]
  rw [hlen] at h
  unfold gridMineCount gridNonMineCount
  exact h

theorem revealed_le_nonMine (b : Board) (rows cols : Nat) :
    revealedNonMineCount b rows cols ≤ gridNonMineCount b rows cols := by
  apply List.countP_mono_left
  intro rc _ h
  simp only [Bool.and_eq_true] at h
  exact h.1

theorem countP_lt_of_witness (l : List (Nat × Nat)) (p q : Nat × Nat → Bool)
    (himp : ∀ a ∈ l, q a = true → p a = true) (a₀ : Nat × Nat) (ha₀ : a₀ ∈ l)
    (hp : p a₀ = true) (hq : q a₀ = false) :
    l.countP q < l.countP p := by
  induction l with
  | nil => simp at ha₀
  | cons a t ih =>
    rw [List.countP_cons, List.countP_cons]
    have hmono : t.countP q ≤ t.countP p :=
      List.countP_mono_left (fun x hx => himp x (List.mem_cons_of_mem _ hx))
    rcases List.mem_cons.mp ha₀ with h | h
    · subst h
      rw [hp, hq, if_pos rfl, if_neg (by simp)]
      omega
    · have ht := ih (fun x hx => himp x (List.mem_cons_of_mem _ hx)) h
      have hif : (if q a = true then 1 else 0) ≤ (if p a = true then 1 else 0) := by
        by_cases hqa : q a = true
        · rw [hqa, himp a (List.mem_cons_self a t) hqa]
        · rw [if_neg hqa]
          omega
      omega

theorem revealedCount_eq_nonMine_iff (b : Board) (rows cols : Nat) :
    revealedNonMineCount b rows cols = gridNonMineCount b rows cols ↔
      ∀ r, r < rows → ∀ c, c < cols →
        (getCellN b r c).isMine = false → (getCellN b r c).isRevealed = true := by
  constructor
  · intro h r hr c hc hm
    by_contra hrev
    have hlt := countP_lt_of_witness (cellIdx rows cols)
      (fun rc => !(getCellN b rc.1 rc.2).isMine)
      (fun rc => !(getCellN b rc.1 rc.2).isMine && (getCellN b rc.1 rc.2).isRevealed)
      (fun a _ ha => by
        simp only [Bool.and_eq_true] at ha
        exact ha.1)
      (r, c) ((mem_cellIdx rows cols r c).mpr ⟨hr, hc⟩)
      (by simpa using hm)
      (by
        simp only [Bool.and_eq_false_iff]
        right
        simpa using hrev)
    unfold revealedNonMineCount gridNonMineCount at h
    omega
  · intro h
    apply Nat.le_antisymm (revealed_le_nonMine b rows cols)
    apply List.countP_mono_left
    intro rc hrc hb
    obtain ⟨h1, h2⟩ := (mem_cellIdx rows cols rc.1 rc.2).mp hrc
    simp only [Bool.not_eq_true'] at hb
    simp only [Bool.and_eq_true]
    exact ⟨by simpa using hb, h rc.1 h1 rc.2 h2 hb⟩

theorem round_frac_eq_100_iff (r n : Nat) (hn : 0 < n) (hr : r ≤ n) :
    round (((r : ℚ) / (n : ℚ)) * 100) = 100 ↔ 199 * n ≤ 200 * r := by
  have hn' : (0:ℚ) < (n:ℚ) := by exact_mod_cast hn
  have hr' : (r:ℚ) ≤ (n:ℚ) := by exact_mod_cast hr
  rw [round_eq, Int.floor_eq_iff, div_mul_eq_mul_div]
  constructor
  · rintro ⟨h1, _⟩
    have h2 : (199:ℚ)/2 ≤ ((r:ℚ) * 100)/n := by
      push_cast at h1
      linarith
    rw [div_le_div_iff (by norm_num) hn'] at h2
    have h3 : (199:ℚ) * n ≤ 200 * r := by linarith
    exact_mod_cast h3
  · intro h
    have h' : (199:ℚ) * n ≤ 200 * r := by exact_mod_cast h
    constructor
    · have h2 : (199:ℚ)/2 ≤ ((r:ℚ) * 100)/n := by
        rw [div_le_div_iff (by norm_num) hn']
        linarith
      push_cast
      linarith
    · have h2 : ((r:ℚ) * 100)/n ≤ 100 := by
        rw [div_le_iff hn']
        nlinarith
      push_cast
      linarith

theorem round_div_mono (r1 r2 : Nat) (d : ℚ) (hd : 0 ≤ d) (h : r1 ≤ r2) :
    round (((r1 : ℚ) / d) * 100) ≤ round (((r2 : ℚ) / d) * 100) := by
  rcases eq_or_lt_of_le hd with heq | hpos
  · rw [← heq]
    simp
  · have h12 : (r1:ℚ) ≤ (r2:ℚ) := by exact_mod_cast h
    have hle : ((r1:ℚ) / d) * 100 ≤ ((r2:ℚ) / d) * 100 := by gcongr
    rw [round_eq, round_eq]
    exact Int.floor_mono (by linarith)

/-! ### Countdown lemmas -/

theorem runTicks_cleared (room : Room) (pbs : PlayerBoards) (bd : Board)
    (fcR fcC : Int) (st : DifficultySettings) (k : Nat) :
    runTicks room pbs bd fcR fcC st k 0 = (0, []) := by
  cases k with
  | zero => rfl
  | succ k =>
    rw [runTicks]
    rw [if_pos rfl]

theorem runTicks_add (room : Room) (pbs : PlayerBoards) (bd : Board)
    (fcR fcC : Int) (st : DifficultySettings) (m n : Nat) :
    ∀ cd, runTicks room pbs bd fcR fcC st (m + n) cd =
      ((runTicks room pbs bd fcR fcC st n
          (runTicks room pbs bd fcR fcC st m cd).1).1,
        (runTicks room pbs bd fcR fcC st m cd).2 ++
          (runTicks room pbs bd fcR fcC st n
            (runTicks room pbs bd fcR fcC st m cd).1).2) := by
  induction m with
  | zero =>
    intro cd
    simp [runTicks]
  | succ m ih =>
    intro cd
    rw [show m + 1 + n = (m + n) + 1 from by omega]
    by_cases hcd : cd = 0
    · subst hcd
      rw [runTicks_cleared, runTicks_cleared, runTicks_cleared]
      simp
    · rw [runTicks, runTicks]
      simp only [if_neg hcd]
      rw [ih]
      simp [List.append_assoc]

theorem hasGameStarted_append (l1 l2 : List Event) :
    hasGameStarted (l1 ++ l2) = (hasGameStarted l1 || hasGameStarted l2) := by
  unfold hasGameStarted
  exact List.any_append

theorem hasGameStarted_runTicks (room : Room) (pbs : PlayerBoards) (bd : Board)
    (fcR fcC : Int) (st : DifficultySettings) (k : Nat) :
    hasGameStarted (runTicks room pbs bd fcR fcC st k 5).2 = decide (5 ≤ k) := by
  by_cases h5 : 5 ≤ k
  · obtain ⟨j, rfl⟩ : ∃ j, k = 5 + j := ⟨k - 5, by omega⟩
    rw [runTicks_add, hasGameStarted_append]
    have h1 : (runTicks room pbs bd fcR fcC st 5 5).1 = 0 := rfl
    rw [h1, runTicks_cleared]
    have h2 : hasGameStarted (runTicks room pbs bd fcR fcC st 5 5).2 = true := rfl
    rw [h2]
    simp [h5]
  · interval_cases k <;> rfl

theorem startGame_fields (f : Int → Frac) (room : Room) (sid : String) (now fuel : Nat)
    (pbs : PlayerBoards) (res : StartResult)
    (h : startGame f room sid now fuel pbs = some res) :
    res.room.gameState = .playing ∧ res.room.gameStartTime = some now ∧
      res.countdown = 5 ∧ res.room.players = room.players ∧
      res.events = [.countdownStarted 5 res.fcRow res.fcCol] := by
  unfold startGame at h
  split at h
  · exact absurd h (by simp)
  · split at h
    · exact absurd h (by simp)
    · split at h
      · exact absurd h (by simp)
      · simp only [] at h
        split at h
        · exact absurd h (by simp)
        · obtain rfl : _ = res := Option.some.inj h
          exact ⟨rfl, rfl, rfl, rfl, rfl⟩

/-! ### Cell-click helper lemmas -/

theorem getCell?_revealAllMines (b : Board) (r c : Int) :
    getCell? (revealAllMines b) r c = (getCell? b r c).map
      (fun cl => if cl.isMine then { cl with isRevealed := true } else cl) := by
  unfold getCell? revealAllMines
  by_cases h : 0 ≤ r ∧ 0 ≤ c
  · rw [if_pos h, if_pos h, List.getElem?_map]
    cases hrow : b[r.toNat]? with
    | none => rfl
    | some row =>
      simp only [Option.map_some', Option.some_bind, List.getElem?_map]
  · rw [if_neg h, if_neg h]
    rfl

theorem getCell?_none_of_oob (b : Board) (rows cols : Nat) (r c : Int)
    (hdims : BoardDims b rows cols)
    (h : r < 0 ∨ (rows : Int) ≤ r ∨ c < 0 ∨ (cols : Int) ≤ c) :
    getCell? b r c = none := by
  unfold getCell?
  by_cases hpos : 0 ≤ r ∧ 0 ≤ c
  · rw [if_pos hpos]
    have hoob : (rows : Int) ≤ r ∨ (cols : Int) ≤ c := by
      rcases h with h | h | h | h
      · omega
      · exact Or.inl h
      · omega
      · exact Or.inr h
    rcases hoob with hoob | hoob
    · rw [List.getElem?_eq_none (by rw [hdims.1]; omega)]
      rfl
    · cases hrow : b[r.toNat]? with
      | none => rfl
      | some row =>
        have hmem : row ∈ b := List.getElem?_mem hrow
        simp only [Option.some_bind]
        rw [List.getElem?_eq_none (by rw [hdims.2 row hmem]; omega)]
  · rw [if_neg hpos]

/-! ### Claim theorems -/

/-- C1: for every fractional-part oracle, seed, positive dimensions
`rows × cols`, mine count, and safe cell, whenever `generateBoardWithSeed`
returns a board, that board is a full `rows × cols` board carrying exactly
`mineCount` mines, none of them inside the safe zone (the safe cell and
its in-bounds Chebyshev-distance-1 neighbours), and the call is
reproducible: any result of a call with identical arguments is the
identical board. -/
theorem c1_generateBoard_spec (f : Int → Frac) (seed : Int) (rows cols mines : Nat)
    (safeR safeC : Int) (fuel : Nat) (b : Board)
    (hf : FracOracle f) (hrows : 0 < rows) (hcols : 0 < cols)
    (hgen : generateBoardWithSeed f seed rows cols mines safeR safeC fuel = some b) :
    gridMineCount b rows cols = mines ∧
    BoardDims b rows cols ∧
    (∀ r c : Int, inSafeZone rows cols safeR safeC r c = true →
      (getCellZ b r c).isMine = false) ∧
    (∀ b' : Board,
      generateBoardWithSeed f seed rows cols mines safeR safeC fuel = some b' → b' = b) := by
  obtain ⟨hdims, hcount, hclear⟩ :=
    generateBoard_props f hf seed rows cols mines safeR safeC fuel b hrows hcols hgen
  exact ⟨hcount, hdims, hclear,
    fun b' h' => (Option.some.inj (hgen.symm.trans h')).symm⟩

/-- Oracle for the C1 witness: the `min` keeps every value a genuine
fractional part with denominator 12. -/
def wOracleA : Int → Frac := fun x => ⟨min ([0, 6].getD x.toNat 0) 11, 12⟩

/-- The board the C1 witness call produces. -/
def c1Board : Board := (generateBoardWithSeed wOracleA 0 1 12 1 0 0 2).getD []

/-- C1 witness: the hypotheses hold and the theorem applies at a concrete
1-by-12 call placing one mine. -/
theorem c1_generateBoard_spec_witness :
    FracOracle wOracleA ∧
    generateBoardWithSeed wOracleA 0 1 12 1 0 0 2 = some c1Board ∧
    gridMineCount c1Board 1 12 = 1 := by
  have hf : FracOracle wOracleA := by
    intro x
    show min ([0, 6].getD x.toNat 0) 11 < 12
    exact Nat.lt_succ_of_le (Nat.min_le_right _ _)
  have hgen : generateBoardWithSeed wOracleA 0 1 12 1 0 0 2 = some c1Board := by decide
  exact ⟨hf, hgen,
    (c1_generateBoard_spec wOracleA 0 1 12 1 0 0 2 c1Board hf (by decide) (by decide) hgen).1⟩

/-- C5: for every full `rows × cols` board and in-bounds origin,
`floodReveal` is idempotent: applying it twice from the same origin gives
the same board as applying it once. -/
theorem c5_floodReveal_idem (b : Board) (rows cols : Nat) (r c : Int)
    (hdims : BoardDims b rows cols)
    (hr0 : 0 ≤ r) (hr : r < (rows : Int)) (hc0 : 0 ≤ c) (hc : c < (cols : Int)) :
    floodReveal (floodReveal b r c rows cols) r c rows cols =
      floodReveal b r c rows cols := by
  by_cases hblock : (getCellZ b r c).isRevealed = true ∨ (getCellZ b r c).isFlagged = true
  · rw [floodReveal_of_blocked b r c rows cols hblock,
      floodReveal_of_blocked b r c rows cols hblock]
  · push_neg at hblock
    apply floodReveal_of_blocked
    exact Or.inl (floodReveal_reveals_origin b r c rows cols hdims hr0 hr hc0 hc
      (by simpa using hblock.2))

/-- Board for the C5 witness: a numbered cell next to a mine. -/
def c5Board : Board := [[⟨false, false, false, 1⟩, ⟨true, false, false, 0⟩]]

/-- C5 witness: the theorem applies to a concrete 1-by-2 board at its
in-bounds origin `(0, 0)`. -/
theorem c5_floodReveal_idem_witness :
    BoardDims c5Board 1 2 ∧
    floodReveal (floodReveal c5Board 0 0 1 2) 0 0 1 2 = floodReveal c5Board 0 0 1 2 := by
  have hdims : BoardDims c5Board 1 2 := by
    unfold BoardDims
    decide
  exact ⟨hdims, c5_floodReveal_idem c5Board 1 2 0 0 hdims (by decide) (by decide)
    (by decide) (by decide)⟩

/-- C6: `checkWin` is true iff every in-range non-mine cell is revealed,
equivalently iff the number of revealed non-mine cells equals the number
of cells minus the number of mines; and it depends only on the `isMine`
and `isRevealed` fields, so flag state has no effect on the result. -/
theorem c6_checkWin_spec (b : Board) (rows cols : Nat) :
    (checkWin b rows cols = true ↔
      ∀ r, r < rows → ∀ c, c < cols →
        (getCellN b r c).isMine = false → (getCellN b r c).isRevealed = true) ∧
    (checkWin b rows cols = true ↔
      revealedNonMineCount b rows cols = rows * cols - gridMineCount b rows cols) ∧
    (∀ b' : Board, (∀ r, r < rows → ∀ c, c < cols →
        (getCellN b' r c).isMine = (getCellN b r c).isMine ∧
        (getCellN b' r c).isRevealed = (getCellN b r c).isRevealed) →
      checkWin b' rows cols = checkWin b rows cols) := by
  have hsplit := gridNonMineCount_eq b rows cols
  refine ⟨checkWin_iff b rows cols, ?_, fun b' h => checkWin_congr b b' rows cols h⟩
  rw [checkWin_iff b rows cols, ← revealedCount_eq_nonMine_iff b rows cols]
  have hle := revealed_le_nonMine b rows cols
  omega

/-- Room for the C8 theorem: a finished game (the state `cellClick` and
the disconnect handler actually assign) whose sole remaining player has
opted into play-again. -/
def c8Room : Room :=
  { id := "ab12", difficulty := "easy",
    players := [{ id := "a", name := "Alice", ready := true, isAdmin := true,
                  wantsToPlayAgain := true }],
    gameState := .finished, seed := 7, gameStartTime := some 0,
    winner := some "Bob" }

/-- The same room in the `post_game` state that no server code path ever
assigns. -/
def c8RoomPost : Room :=
  { c8Room with gameState := .postGame }

/-- C8 (code bug): with the room in `finished` — the state a real game
end leaves behind — a play-again requester who sends `returnToLobby` is
merely removed (`returnedToLobby`), not moved to a fresh room; the
brand-new-room branch fires only in the `post_game` state, which no
assignment in the server ever produces. -/
theorem c8_returnToLobby_deadBranch :
    returnToLobby c8Room "a" "zz99" 3 =
      LobbyOutcome.returned none [Event.playerLeft "a", Event.returnedToLobby] ∧
    returnToLobby c8RoomPost "a" "zz99" 3 =
      LobbyOutcome.moved
        { id := "zz99", difficulty := "easy",
          players := [{ id := "a", name := "Alice", ready := false, isAdmin := true }],
          gameState := .waiting, seed := 3, gameStartTime := none, winner := none }
        none [Event.playerLeft "a", Event.movedToNewRoom "zz99"] := by
  constructor
  · decide
  · decide

/-- C9: for a room in `playing` whose sender holds a full `rows × cols`
board, a `cellClick` or `cellFlag` event whose coordinates lie outside
`[0, rows) × [0, cols)` reaches the unguarded `playerBoard[row][col]`
access: the lookup yields nothing and both handlers end in the
type-error outcome, so the handlers are safe only when the coordinates
are in bounds. -/
theorem c9_oob_typeError (room : Room) (pbs : PlayerBoards) (sid : String)
    (b : Board) (rows cols : Nat) (row col : Int)
    (hstate : room.gameState = .playing) (hlook : pbs.lookup sid = some b)
    (hdims : BoardDims b rows cols)
    (hoob : row < 0 ∨ (rows : Int) ≤ row ∨ col < 0 ∨ (cols : Int) ≤ col) :
    cellClick room pbs sid row col = .typeError ∧
    cellFlag room pbs sid row col = .typeError := by
  have hnone := getCell?_none_of_oob b rows cols row col hdims hoob
  constructor
  · unfold cellClick
    rw [if_neg (by rw [hstate]; exact fun hh => hh rfl), hlook]
    show (match getCell? b row col with
      | none => ClickOutcome.typeError
      | some cell => _) = ClickOutcome.typeError
    rw [hnone]
  · unfold cellFlag
    rw [if_neg (by rw [hstate]; exact fun hh => hh rfl), hlook]
    show (match getCell? b row col with
      | none => ClickOutcome.typeError
      | some cell => _) = ClickOutcome.typeError
    rw [hnone]

/-- C9 witness: a concrete playing room with an 1-by-1 board and the
out-of-range click `(0, 5)`. -/
theorem c9_oob_typeError_witness :
    cellClick
        { id := "r", difficulty := "easy",
          players := [{ id := "a", name := "A", ready := true, isAdmin := true }],
          gameState := .playing, seed := 0, gameStartTime := none, winner := none }
        [("a", [[Cell.init]])] "a" 0 5 = .typeError ∧
    cellFlag
        { id := "r", difficulty := "easy",
          players := [{ id := "a", name := "A", ready := true, isAdmin := true }],
          gameState := .playing, seed := 0, gameStartTime := none, winner := none }
        [("a", [[Cell.init]])] "a" 0 5 = .typeError := by
  refine c9_oob_typeError _ _ "a" [[Cell.init]] 1 1 0 5 rfl (by decide) ?_ (by decide)
  unfold BoardDims
  decide

/-- C3 (amended): player progress is
`round(100 * revealedNonMineCells / (totalCells - mineCount))`, it is
monotonically non-decreasing as more non-mine cells are revealed on a
fixed mine layout, and — writing `n` for the number of non-mine cells —
progress is 100 exactly when `199 * n ≤ 200 * revealed`; hence it is 100
at a win, but on boards with 200 or more non-mine cells it can reach 100
with cells still unrevealed, and the claimed equivalence with winning
holds only for boards with at most 199 non-mine cells. -/
theorem c3_progress_spec (b : Board) (rows cols mines : Nat)
    (hM : mines = gridMineCount b rows cols) (hlt : mines < rows * cols) :
    (getPlayerProgress b rows cols mines =
      round ((100 * (revealedNonMineCount b rows cols : ℚ)) /
        ((rows * cols : ℚ) - (mines : ℚ)))) ∧
    (∀ b' : Board,
      (∀ r, r < rows → ∀ c, c < cols →
        (getCellN b' r c).isMine = (getCellN b r c).isMine) →
      (∀ r, r < rows → ∀ c, c < cols →
        (getCellN b r c).isRevealed = true → (getCellN b' r c).isRevealed = true) →
      getPlayerProgress b rows cols mines ≤ getPlayerProgress b' rows cols mines) ∧
    (getPlayerProgress b rows cols mines = 100 ↔
      199 * (rows * cols - mines) ≤ 200 * revealedNonMineCount b rows cols) ∧
    (rows * cols - mines ≤ 199 →
      (getPlayerProgress b rows cols mines = 100 ↔
        ∀ r, r < rows → ∀ c, c < cols →
          (getCellN b r c).isMine = false → (getCellN b r c).isRevealed = true)) := by
  have hsplit := gridNonMineCount_eq b rows cols
  have hnm : gridNonMineCount b rows cols = rows * cols - mines := by omega
  have hn : 0 < rows * cols - mines := by omega
  have hle : revealedNonMineCount b rows cols ≤ rows * cols - mines := by
    have := revealed_le_nonMine b rows cols
    omega
  have hcast : ((rows * cols : ℚ) - (mines : ℚ)) = ((rows * cols - mines : ℕ) : ℚ) := by
    have hmle : mines ≤ rows * cols := by omega
    push_cast [Nat.cast_sub hmle]
    ring
  refine ⟨?_, ?_, ?_, ?_⟩
  · unfold getPlayerProgress
    congr 1
    ring
  · intro b' hmines hrev
    unfold getPlayerProgress
    rw [hcast]
    apply round_div_mono _ _ _ (by positivity)
    apply List.countP_mono_left
    intro rc hrc hb
    obtain ⟨h1, h2⟩ := (mem_cellIdx rows cols rc.1 rc.2).mp hrc
    simp only [Bool.and_eq_true, Bool.not_eq_true'] at hb ⊢
    exact ⟨by rw [hmines rc.1 h1 rc.2 h2]; exact hb.1, hrev rc.1 h1 rc.2 h2 hb.2⟩
  · unfold getPlayerProgress
    rw [hcast]
    exact round_frac_eq_100_iff _ _ hn hle
  · intro hsmall
    unfold getPlayerProgress
    rw [hcast, round_frac_eq_100_iff _ _ hn hle,
      ← revealedCount_eq_nonMine_iff b rows cols, hnm]
    omega

/-- Board for the C3 counterexample: one row of 200 non-mine cells, 199
of them revealed. -/
def c3Board : Board :=
  [List.replicate 199 ⟨false, true, false, 0⟩ ++ [⟨false, false, false, 0⟩]]

set_option maxRecDepth 4000 in
/-- C3 counterexample: on a 1-by-200 mine-free board with 199 of 200
cells revealed the progress is already 100 although the board is not won,
refuting the claim that progress is 100 exactly at a win. -/
theorem c3_progress_counterexample :
    getPlayerProgress c3Board 1 200 0 = 100 ∧ checkWin c3Board 1 200 = false := by
  constructor
  · have hrev : revealedNonMineCount c3Board 1 200 = 199 := by decide
    unfold getPlayerProgress
    rw [hrev,
      show ((1 : ℕ) : ℚ) * ((200 : ℕ) : ℚ) - ((0 : ℕ) : ℚ) = ((200 : ℕ) : ℚ) from by
        push_cast
        norm_num]
    exact (round_frac_eq_100_iff 199 200 (by norm_num) (by norm_num)).mpr (by norm_num)
  · decide

/-- Board for the C3 witness: a 1-by-2 board, one mine, non-mine cell
revealed. -/
def c3SmallBoard : Board := [[⟨false, true, false, 1⟩, ⟨true, false, false, 0⟩]]

/-- C3 witness: the amended theorem applies to a concrete board, whose
mine parameter matches its actual mine count. -/
theorem c3_progress_spec_witness :
    1 = gridMineCount c3SmallBoard 1 2 ∧
    (getPlayerProgress c3SmallBoard 1 2 1 = 100 ↔
      199 * (1 * 2 - 1) ≤ 200 * revealedNonMineCount c3SmallBoard 1 2) :=
  ⟨by decide, (c3_progress_spec c3SmallBoard 1 2 1 (by decide) (by decide)).2.2.1⟩

/-- Oracle for the C2 theorems: first click at `(0, 0)`, then ten mines
in rows 4 and 5 of the easy board; the `min` keeps every value a genuine
fractional part with denominator 8. -/
def wOracleB : Int → Frac := fun x =>
  ⟨min ([0, 0, 4, 0, 4, 1, 4, 2, 4, 3, 4, 4, 4, 5, 4, 6, 4, 7, 5, 0, 5, 1].getD x.toNat 0) 7,
    8⟩

/-- Room for the C2 theorems: two ready players, admin `a`, easy
difficulty, seed 0. -/
def c2Room : Room :=
  { id := "r1", difficulty := "easy",
    players := [{ id := "a", name := "A", ready := true, isAdmin := true },
                { id := "b", name := "B", ready := true, isAdmin := false }],
    gameState := .ready, seed := 0, gameStartTime := none, winner := none }

set_option maxRecDepth 8000 in
/-- C2 counterexample: immediately after the admin's `startGame` is
processed — with the whole 5-step countdown still pending, no tick
having fired — the room's stored gameState is already `playing`,
refuting the claim that it is not `playing` while the countdown is still
ticking and flips only after the countdown completes. -/
theorem c2_counterexample :
    (startGame wOracleB c2Room "a" 100 12 []).map
      (fun res => (res.room.gameState, res.countdown)) =
      some (GameState.playing, 5) := by
  decide

/-- C2 (amended): when `startGame` succeeds, the room's gameState is set
to `playing` synchronously, before any countdown tick fires (the
countdown stands at 5 and no `gameStarted` has been emitted); the
countdown delays only the `gameStarted` broadcast, which fires on the
fifth one-second tick and on no earlier one. -/
theorem c2_startGame_spec (f : Int → Frac) (room : Room) (sid : String)
    (now fuel : Nat) (pbs : PlayerBoards) (res : StartResult)
    (h : startGame f room sid now fuel pbs = some res) :
    res.room.gameState = .playing ∧ res.countdown = 5 ∧
    hasGameStarted res.events = false ∧
    (∀ k : Nat, hasGameStarted
        (runTicks res.room res.boards res.board res.fcRow res.fcCol res.settings
          k res.countdown).2 = decide (5 ≤ k)) := by
  obtain ⟨h1, _, h3, _, h5⟩ := startGame_fields f room sid now fuel pbs res h
  refine ⟨h1, h3, ?_, ?_⟩
  · rw [h5]
    rfl
  · intro k
    rw [h3]
    exact hasGameStarted_runTicks res.room res.boards res.board res.fcRow res.fcCol
      res.settings k

/-- The start result of the C2 witness run. -/
def c2Res : StartResult :=
  (startGame wOracleB c2Room "a" 100 12 []).getD
    ⟨c2Room, [], [], 0, 0, ⟨0, 0, 0⟩, 0, []⟩

set_option maxRecDepth 8000 in
/-- C2 witness: the amended theorem applies to the concrete easy-board
run of the counterexample. -/
theorem c2_startGame_spec_witness :
    startGame wOracleB c2Room "a" 100 12 [] = some c2Res ∧
    (c2Res.room.gameState = .playing ∧ c2Res.countdown = 5 ∧
      hasGameStarted c2Res.events = false ∧
      (∀ k : Nat, hasGameStarted
          (runTicks c2Res.room c2Res.boards c2Res.board c2Res.fcRow c2Res.fcCol
            c2Res.settings k c2Res.countdown).2 = decide (5 ≤ k))) := by
  have hgen : startGame wOracleB c2Room "a" 100 12 [] = some c2Res := by decide
  exact ⟨hgen, c2_startGame_spec wOracleB c2Room "a" 100 12 [] c2Res hgen⟩

theorem toggleReadyFirst_length (l : List Player) (sid : String) :
    (toggleReadyFirst l sid).length = l.length := by
  induction l with
  | nil => rfl
  | cons p ps ih =>
    unfold toggleReadyFirst
    by_cases h : p.id = sid
    · rw [if_pos h]
      rfl
    · rw [if_neg h]
      simp [ih]

theorem toggleReadyFirst_all_false (l : List Player) (sid : String) (q : Player)
    (hfind : l.find? (fun p => p.id = sid) = some q) (hq : q.ready = true) :
    (toggleReadyFirst l sid).all (·.ready) = false := by
  induction l with
  | nil => simp [List.find?] at hfind
  | cons p ps ih =>
    by_cases h : p.id = sid
    · have hhead : List.find? (fun x => decide (x.id = sid)) (p :: ps) = some p :=
        List.find?_cons_of_pos _ (decide_eq_true h)
      rw [hhead] at hfind
      obtain rfl : p = q := Option.some.inj hfind
      unfold toggleReadyFirst
      rw [if_pos h, List.all_cons]
      simp [hq]
    · have hhead : List.find? (fun x => decide (x.id = sid)) (p :: ps) =
          List.find? (fun x => decide (x.id = sid)) ps :=
        List.find?_cons_of_neg _ (by simpa using h)
      rw [hhead] at hfind
      unfold toggleReadyFirst
      rw [if_neg h, List.all_cons, ih hfind]
      simp

/-- C7: for any room holding at most two players (the capacity `joinRoom`
enforces) whose sender is found among the players, after the
`playerReady` toggle the room is in `ready` exactly when it has two
players all of whose ready flags are set — in particular a room with a
sole player never becomes `ready` — and toggling a set ready flag off
while the room is in `ready` sends the room back to `waiting`. -/
theorem c7_playerReady_spec (room : Room) (sid : String) (q : Player)
    (hcap : room.players.length ≤ 2)
    (hfind : room.players.find? (fun p => p.id = sid) = some q) :
    ((playerReady room sid).1.gameState = .ready ↔
      ((playerReady room sid).1.players.length = 2 ∧
        (playerReady room sid).1.players.all (·.ready) = true)) ∧
    (room.gameState = .ready → q.ready = true →
      (playerReady room sid).1.gameState = .waiting) := by
  have hlen := toggleReadyFirst_length room.players sid
  constructor
  · by_cases hcond : 2 ≤ (toggleReadyFirst room.players sid).length ∧
        ((toggleReadyFirst room.players sid).all (·.ready)) = true
    · have hpr : playerReady room sid =
          ({ room with
              players := toggleReadyFirst room.players sid,
              gameState := .ready }, [.playerReadyEvt sid, .gameReady]) := by
        unfold playerReady
        rw [hfind]
        simp only []
        rw [if_pos hcond]
      rw [hpr]
      constructor
      · intro _
        refine ⟨?_, hcond.2⟩
        show (toggleReadyFirst room.players sid).length = 2
        omega
      · intro _
        rfl
    · by_cases hold : room.gameState = .ready
      · have hpr : playerReady room sid =
            ({ room with
                players := toggleReadyFirst room.players sid,
                gameState := .waiting }, [.playerReadyEvt sid, .gameWaiting]) := by
          unfold playerReady
          rw [hfind]
          simp only []
          rw [if_neg hcond, if_pos hold]
        rw [hpr]
        constructor
        · intro hw
          exact absurd hw (by simp)
        · rintro ⟨h2, hall⟩
          have h2x : (toggleReadyFirst room.players sid).length = 2 := h2
          exact absurd ⟨by omega, hall⟩ hcond
      · have hpr : playerReady room sid =
            ({ room with players := toggleReadyFirst room.players sid },
              [.playerReadyEvt sid]) := by
          unfold playerReady
          rw [hfind]
          simp only []
          rw [if_neg hcond, if_neg hold]
        rw [hpr]
        constructor
        · intro hred
          exact absurd hred hold
        · rintro ⟨h2, hall⟩
          have h2x : (toggleReadyFirst room.players sid).length = 2 := h2
          exact absurd ⟨by omega, hall⟩ hcond
  · intro hold hq
    have hall : (toggleReadyFirst room.players sid).all (·.ready) = false :=
      toggleReadyFirst_all_false room.players sid q hfind hq
    have hcond : ¬(2 ≤ (toggleReadyFirst room.players sid).length ∧
        ((toggleReadyFirst room.players sid).all (·.ready)) = true) := by
      rintro ⟨_, hx⟩
      rw [hall] at hx
      exact absurd hx (by simp)
    unfold playerReady
    rw [hfind]
    simp only []
    rw [if_neg hcond, if_pos hold]

/-- C7 witness: a concrete two-player room in `ready` whose first player
(ready flag set) is found by the handler; in particular the toggle sends
the room back to `waiting`. -/
theorem c7_playerReady_spec_witness :
    c2Room.players.length ≤ 2 ∧
    c2Room.players.find? (fun p => p.id = "a") =
      some { id := "a", name := "A", ready := true, isAdmin := true } ∧
    (((playerReady c2Room "a").1.gameState = .ready ↔
      ((playerReady c2Room "a").1.players.length = 2 ∧
        (playerReady c2Room "a").1.players.all (·.ready) = true)) ∧
    (c2Room.gameState = .ready →
      ({ id := "a", name := "A", ready := true, isAdmin := true } : Player).ready = true →
      (playerReady c2Room "a").1.gameState = .waiting)) :=
  ⟨by decide, by decide,
    c7_playerReady_spec c2Room "a"
      { id := "a", name := "A", ready := true, isAdmin := true }
      (by decide) (by decide)⟩

theorem cellClick_mine_eq (room : Room) (pbs : PlayerBoards) (sid : String)
    (row col : Int) (bS : Board) (cell : Cell)
    (hstate : room.gameState = .playing)
    (hlook : pbs.lookup sid = some bS)
    (hcell : getCell? bS row col = some cell)
    (hflag : cell.isFlagged = false) (hmine : cell.isMine = true) :
    cellClick room pbs sid row col = .ok
      { room with
          gameState := .finished,
          winner := some (jsNameOr
            ((room.players.find? (fun p => p.id ≠ sid)).map (·.name))) }
      (pbs.store sid (revealAllMines bS))
      [.gameOver (jsNameOr ((room.players.find? (fun p => p.id ≠ sid)).map (·.name)))
        (jsNameOr ((room.players.find? (fun p => p.id = sid)).map (·.name)))
        ((room.players.find? (fun p => p.id ≠ sid)).map (·.id)) sid] := by
  unfold cellClick
  rw [if_neg (by rw [hstate]; exact fun hh => hh rfl), hlook]
  simp only []
  rw [hcell]
  simp only []
  rw [if_neg (by simp [hflag]), if_pos (by rw [hmine])]

/-- C4: when a player of a playing two-player room clicks an unflagged
mine cell, the handler replaces that player's board by the copy with
every mine revealed and all non-mine cells untouched, leaves the
opponent's stored board unchanged, sets the room to `finished` with the
opponent as winner, and emits `gameOver` carrying the opponent's id as
`winnerId` and the clicking player's id as `loserId`. -/
theorem c4_cellClick_mine (room : Room) (pbs : PlayerBoards) (A B : Player)
    (bA bB : Board) (sid : String) (row col : Int) (cell : Cell)
    (hplayers : room.players = [A, B]) (hne : A.id ≠ B.id)
    (hstate : room.gameState = .playing)
    (hsid : sid = A.id ∨ sid = B.id)
    (hlookA : pbs.lookup A.id = some bA) (hlookB : pbs.lookup B.id = some bB)
    (hcell : getCell? (if sid = A.id then bA else bB) row col = some cell)
    (hflag : cell.isFlagged = false) (hmine : cell.isMine = true) :
    (cellClick room pbs sid row col = .ok
      { room with
          gameState := .finished,
          winner := some (jsNameOr (some (if sid = A.id then B else A).name)) }
      (pbs.store sid (revealAllMines (if sid = A.id then bA else bB)))
      [.gameOver (jsNameOr (some (if sid = A.id then B else A).name))
        (jsNameOr (some (if sid = A.id then A else B).name))
        (some (if sid = A.id then B else A).id) sid]) ∧
    ((pbs.store sid (revealAllMines (if sid = A.id then bA else bB))).lookup
        (if sid = A.id then B else A).id = some (if sid = A.id then bB else bA)) ∧
    (∀ r c : Int, getCell? (revealAllMines (if sid = A.id then bA else bB)) r c =
      (getCell? (if sid = A.id then bA else bB) r c).map
        (fun cl => if cl.isMine then { cl with isRevealed := true } else cl)) := by
  rcases hsid with h | h
  · subst h
    simp only [eq_self_iff_true, if_true] at hcell ⊢
    have hfOpp : room.players.find? (fun p => p.id ≠ A.id) = some B := by
      rw [hplayers, List.find?_cons_of_neg _ (by simp)]
      exact List.find?_cons_of_pos _ (decide_eq_true (Ne.symm hne))
    have hfCur : room.players.find? (fun p => p.id = A.id) = some A := by
      rw [hplayers]
      exact List.find?_cons_of_pos _ (by simp)
    refine ⟨?_, ?_, fun r c => getCell?_revealAllMines _ r c⟩
    · rw [cellClick_mine_eq room pbs A.id row col bA cell hstate hlookA hcell hflag hmine,
        hfOpp, hfCur]
      rfl
    · rw [lookup_store_ne pbs A.id B.id _ (Ne.symm hne)]
      exact hlookB
  · subst h
    have hBA : (B.id = A.id) = False := eq_false (fun hh => hne hh.symm)
    simp only [hBA, if_false] at hcell ⊢
    have hfOpp : room.players.find? (fun p => p.id ≠ B.id) = some A := by
      rw [hplayers]
      exact List.find?_cons_of_pos _ (decide_eq_true hne)
    have hfCur : room.players.find? (fun p => p.id = B.id) = some B := by
      rw [hplayers, List.find?_cons_of_neg _ (by simp [hne])]
      exact List.find?_cons_of_pos _ (by simp)
    refine ⟨?_, ?_, fun r c => getCell?_revealAllMines _ r c⟩
    · rw [cellClick_mine_eq room pbs B.id row col bB cell hstate hlookB hcell hflag hmine,
        hfOpp, hfCur]
      rfl
    · rw [lookup_store_ne pbs B.id A.id _ hne]
      exact hlookA

/-- Board with a single unflagged mine for the C4 witness. -/
def c4Board : Board := [[⟨true, false, false, 0⟩]]

/-- Room for the C4 witness: two players, playing state. -/
def c4Room : Room :=
  { id := "r4", difficulty := "easy",
    players := [{ id := "a", name := "A", ready := true, isAdmin := true },
                { id := "b", name := "B", ready := true, isAdmin := false }],
    gameState := .playing, seed := 0, gameStartTime := some 1, winner := none }

/-- C4 witness: player `a` clicks the mine at `(0, 0)`; the theorem
applies with both stored boards concrete. -/
theorem c4_cellClick_mine_witness :
    cellClick c4Room [("a", c4Board), ("b", c4Board)] "a" 0 0 = .ok
      { c4Room with gameState := .finished, winner := some "B" }
      [("a", revealAllMines c4Board), ("b", c4Board)]
      [.gameOver "B" "A" (some "b") "a"] := by
  have h := (c4_cellClick_mine c4Room [("a", c4Board), ("b", c4Board)]
    { id := "a", name := "A", ready := true, isAdmin := true }
    { id := "b", name := "B", ready := true, isAdmin := false }
    c4Board c4Board "a" 0 0 ⟨true, false, false, 0⟩
    rfl (by decide) rfl (Or.inl rfl) (by decide) (by decide)
    (by decide) rfl rfl).1
  rw [h]
  rfl

end Mines
